import Mathlib

/-!
Verification development for the token-viewer usage engine and its
presentation-layer consumers.

The frontend (React) layer is embedded directly from the TypeScript
sources (`src/hooks/useUsageData.ts`, `src/components/Dashboard.tsx`,
`src/components/DateTable.tsx`, `src/components/UsageTable.tsx`,
`src/types.ts`).  The Tauri backend (the scan orchestrator, the cost
calculator, the offset store and the format parsers) is not part of the
available sources, so it is modelled from the specification; every such
definition carries a doc comment starting with `Modelled from the spec:`.

JavaScript numbers are embedded as `Nat` for token counts and request
counters and as `ℚ` for monetary cost.
-/

namespace TokenViewer

/-- The public usage-record type, embedded from `src/types.ts`
(`UsageEntry`): timestamp, tool and model are strings; the four token
counts are numbers; cost is a number.  These eight fields are the whole
record exposed to the presentation layer. -/
structure UsageEntry where
  timestamp : String
  tool : String
  model : String
  input_tokens : Nat
  output_tokens : Nat
  cache_read_tokens : Nat
  cache_write_tokens : Nat
  cost : ℚ
deriving DecidableEq, Repr

/-! ## The `useUsageData` hook (`src/hooks/useUsageData.ts`) -/

/-- The React state held by `useUsageData`: `data`, `loading`, `error`
state cells plus the `hasFullLoaded` ref. -/
structure HookState where
  data : List UsageEntry
  loading : Bool
  error : Option String
  hasFullLoaded : Bool
deriving DecidableEq, Repr

/-- The initial hook state: `useState<UsageEntry[]>([])`,
`useState(false)`, `useState<string | null>(null)`,
`useRef(false)`. -/
def initialHookState : HookState :=
  { data := [], loading := false, error := none, hasFullLoaded := false }

/-- The command string chosen at the start of `refresh`:
`hasFullLoaded.current ? 'scan_all_usage_incremental' : 'scan_all_usage'`. -/
def refreshCmd (s : HookState) : String :=
  if s.hasFullLoaded then "scan_all_usage_incremental" else "scan_all_usage"

/-- The synchronous prefix of `refresh`: `setLoading(true)` and
`setError(null)` before the `invoke` await. -/
def refreshStart (s : HookState) : HookState :=
  { s with loading := true, error := none }

/-- The continuation of `refresh` once the awaited `invoke` settles:
on fulfilment, `setData(next)` and `hasFullLoaded.current = true`;
on rejection, `setError(message)`; in both cases the `finally` block
runs `setLoading(false)`. -/
def refreshFinish (s : HookState) : Except String (List UsageEntry) → HookState
  | Except.ok next =>
      { s with data := next, hasFullLoaded := true, loading := false }
  | Except.error msg =>
      { s with error := some msg, loading := false }

/-- One complete run of `refresh`, from call to settlement of its
promise, given the outcome of the backend `invoke`. -/
def refreshStep (s : HookState) (r : Except String (List UsageEntry)) : HookState :=
  refreshFinish (refreshStart s) r

/-- A sequence of completed (non-overlapping) `refresh` runs. -/
def runRefreshes (s : HookState) (rs : List (Except String (List UsageEntry))) : HookState :=
  rs.foldl refreshStep s

/-- Whether an `invoke` outcome is a fulfilment. -/
def isOk : Except String (List UsageEntry) → Bool
  | Except.ok _ => true
  | Except.error _ => false

/-! ## The backend scan engine, modelled from the specification

The Rust/Tauri side (`scan_all_usage`, `scan_all_usage_incremental`,
the Cost Calculator, the Offset Store and the format parsers) is not in
the available sources; the definitions below are modelled from the
specification (sections 3, 4.3, 4.4, 4.5 and 6). -/

/-- Modelled from the spec: the fixed tool enumeration ("one of a fixed
enumeration: ClaudeCode, CodexCLI, OpenCode"). -/
inductive Tool where
  | ClaudeCode
  | CodexCLI
  | OpenCode
deriving DecidableEq, Repr

/-- Modelled from the spec: the string carried in a `UsageEntry`'s
`tool` field for each enumeration value. -/
def toolName : Tool → String
  | Tool.ClaudeCode => "ClaudeCode"
  | Tool.CodexCLI => "CodexCLI"
  | Tool.OpenCode => "OpenCode"

/-- Modelled from the spec: one pricing tier of a `PricingRule` —
`{threshold_tokens, input_rate, output_rate, cache_read_rate,
cache_write_rate}`, all rates per 1000 tokens. -/
structure Tier where
  threshold_tokens : Nat
  input_rate : ℚ
  output_rate : ℚ
  cache_read_rate : ℚ
  cache_write_rate : ℚ
deriving DecidableEq, Repr

/-- Modelled from the spec: a pricing rule — a model pattern and an
ordered list of tiers, sorted ascending by `threshold_tokens`. -/
structure PricingRule where
  model : String
  tiers : List Tier
deriving DecidableEq, Repr

/-- Modelled from the spec: the Pricing Table, a read-only mapping from
model identifier to tiered rate rules. -/
def PricingTable : Type := List PricingRule

/-- Modelled from the spec: Pricing Table lookup — "exact match
preferred; if the table defines family-level fallback patterns,
longest-prefix match wins". -/
def lookupRule (table : PricingTable) (model : String) : Option PricingRule :=
  match table.find? (fun r => r.model = model) with
  | some r => some r
  | none =>
      (table.filter (fun r => model.startsWith r.model)).foldl
        (fun best r =>
          match best with
          | none => some r
          | some b => if b.model.length < r.model.length then some r else some b)
        none

/-- Modelled from the spec: active-tier selection — "the active tier for
a request is the highest threshold not exceeding" the request's own
`input_tokens`. -/
def selectTier (tiers : List Tier) (n : Nat) : Option Tier :=
  tiers.foldl
    (fun best t =>
      if t.threshold_tokens ≤ n then
        match best with
        | none => some t
        | some b => if b.threshold_tokens ≤ t.threshold_tokens then some t else some b
      else best)
    none

/-- Modelled from the spec: the Cost Calculator — a pure function from
model identifier and the four token counts to a cost plus an "unpriced"
flag.  An unknown model yields cost 0 and the flag set; otherwise the
single active tier's rates (per 1000 tokens) are applied to the entire
request, cache reads and writes priced at the same tier. -/
def calcCost (table : PricingTable) (model : String)
    (i o cr cw : Nat) : ℚ × Bool :=
  match lookupRule table model with
  | none => (0, true)
  | some rule =>
      match selectTier rule.tiers i with
      | none => (0, false)
      | some t =>
          ((i : ℚ) * t.input_rate / 1000 + (o : ℚ) * t.output_rate / 1000 +
             (cr : ℚ) * t.cache_read_rate / 1000 + (cw : ℚ) * t.cache_write_rate / 1000,
           false)

/-- Modelled from the spec: a `RawEvent` — the per-parser output before
pricing: token counts, `model`, `timestamp`, and an optional identity
key used for deduplication. -/
structure RawEvent where
  timestamp : String
  model : String
  input_tokens : Nat
  output_tokens : Nat
  cache_read_tokens : Nat
  cache_write_tokens : Nat
  identity : Option String
deriving DecidableEq, Repr

/-- Modelled from the spec: one located source file as the orchestrator
sees it — its path, owning tool, the sequence of raw events its parser
yields from offset zero (offsets counted in events), and its current
size and modification time. -/
structure SourceFile where
  path : String
  tool : Tool
  events : List RawEvent
  size : Nat
  mtime : Nat
deriving DecidableEq, Repr

/-- Modelled from the spec: a `FileCursor` — last-read position plus the
file size and modification time observed at the last scan. -/
structure FileCursor where
  last_offset : Nat
  file_size_at_last_scan : Nat
  modified_time_at_last_scan : Nat
deriving DecidableEq, Repr

/-- Association-list lookup, keyed by string (JS `Map.get`). -/
def mapGet {β : Type} : List (String × β) → String → Option β
  | [], _ => none
  | (k, v) :: rest, p => if k = p then some v else mapGet rest p

/-- Association-list update, keyed by string (JS `Map.set`): replace in
place when the key is present, append otherwise. -/
def mapSet {β : Type} : List (String × β) → String → β → List (String × β)
  | [], p, c => [(p, c)]
  | (k, v) :: rest, p, c =>
      if k = p then (p, c) :: rest else (k, v) :: mapSet rest p c

/-- Modelled from the spec: the deduplication key — "by identity key
when present, else by an exact-match tuple of (tool, model, timestamp,
all four token counts)". -/
inductive DedupKey where
  | byId (id : String)
  | byTuple (tool : Tool) (model : String) (timestamp : String)
      (i o cr cw : Nat)
deriving DecidableEq, Repr

/-- Modelled from the spec: the deduplication key of one raw event from
a given tool's file. -/
def dedupKey (tool : Tool) (ev : RawEvent) : DedupKey :=
  match ev.identity with
  | some id => DedupKey.byId id
  | none =>
      DedupKey.byTuple tool ev.model ev.timestamp ev.input_tokens
        ev.output_tokens ev.cache_read_tokens ev.cache_write_tokens

/-- Modelled from the spec: pricing one raw event into the public
`UsageEntry`.  The calculator's unpriced flag has no field in the public
record type (`src/types.ts` declares exactly eight fields), so only the
cost survives into the entry. -/
def priceEvent (table : PricingTable) (tool : Tool) (ev : RawEvent) : UsageEntry :=
  { timestamp := ev.timestamp
    tool := toolName tool
    model := ev.model
    input_tokens := ev.input_tokens
    output_tokens := ev.output_tokens
    cache_read_tokens := ev.cache_read_tokens
    cache_write_tokens := ev.cache_write_tokens
    cost := (calcCost table ev.model ev.input_tokens ev.output_tokens
      ev.cache_read_tokens ev.cache_write_tokens).1 }

/-- Modelled from the spec: the orchestrator's persistent state — the
Offset Store (cursor per absolute path) and the accumulated deduplicated
entry set, each entry stored with its deduplication key. -/
structure ScanState where
  cursors : List (String × FileCursor)
  entries : List (DedupKey × UsageEntry)

/-- Modelled from the spec: the empty scan state (fresh process, empty
Offset Store). -/
def scanState0 : ScanState := { cursors := [], entries := [] }

/-- Modelled from the spec: insert one priced entry unless an entry with
the same deduplication key is already known. -/
def insertEntry (acc : List (DedupKey × UsageEntry)) (k : DedupKey)
    (e : UsageEntry) : List (DedupKey × UsageEntry) :=
  if ∃ p ∈ acc, p.1 = k then acc else acc ++ [(k, e)]

/-- Modelled from the spec: merge a batch of newly priced entries into
the accumulated set, deduplicating by key. -/
def insertAll (acc news : List (DedupKey × UsageEntry)) :
    List (DedupKey × UsageEntry) :=
  news.foldl (fun a p => insertEntry a p.1 p.2) acc

/-- Modelled from the spec: the fresh cursor written for a file after a
scan has advanced through it. -/
def cursorOf (f : SourceFile) : FileCursor :=
  { last_offset := f.events.length
    file_size_at_last_scan := f.size
    modified_time_at_last_scan := f.mtime }

/-- Modelled from the spec: where an incremental scan starts reading a
file — offset zero when the cursor is missing or invalidated (file
shrank, or modification time older than recorded), else the recorded
`last_offset`. -/
def startOffset : Option FileCursor → SourceFile → Nat
  | none, _ => 0
  | some c, f =>
      if f.size < c.file_size_at_last_scan ∨
          f.mtime < c.modified_time_at_last_scan then 0
      else c.last_offset

/-- Modelled from the spec: processing one located file — decide the
read range (offset zero on a full scan), parse and price the unread
events, merge them into the accumulated set, and write a fresh cursor. -/
def stepFile (table : PricingTable) (full : Bool) (st : ScanState)
    (f : SourceFile) : ScanState :=
  let start := if full then 0 else startOffset (mapGet st.cursors f.path) f
  let news := (f.events.drop start).map
    (fun ev => (dedupKey f.tool ev, priceEvent table f.tool ev))
  { cursors := mapSet st.cursors f.path (cursorOf f)
    entries := insertAll st.entries news }

/-- Modelled from the spec: `scan_all_usage` — full scan: reset all
cursors, parse every located file from offset zero, write a fresh cursor
per file, and return the complete accumulated entry set. -/
def scanAllUsage (table : PricingTable) (st : ScanState)
    (files : List SourceFile) : ScanState × List UsageEntry :=
  let st1 := files.foldl (stepFile table true) { st with cursors := [] }
  (st1, st1.entries.map (fun p => p.2))

/-- Modelled from the spec: `scan_all_usage_incremental` — incremental
scan using stored cursors: parse only each file's unread tail (full
re-read when the cursor is missing or invalidated), and return the
complete accumulated entry set, not just the delta. -/
def scanAllUsageIncremental (table : PricingTable) (st : ScanState)
    (files : List SourceFile) : ScanState × List UsageEntry :=
  let st1 := files.foldl (stepFile table false) st
  (st1, st1.entries.map (fun p => p.2))

/-! ## Presentation-layer aggregations

Embedded from `src/components/Dashboard.tsx`,
`src/components/DateTable.tsx` and `src/components/UsageTable.tsx`.
All three grouping tables fold the entry list into a JS `Map` (an
insertion-ordered association list) with the same update shape; the
shared shape is factored into `keyedFold` and instantiated per
component.  JS `Date` parsing cannot be embedded, so `safeDate` is a
parameter `sd : String → Option δ` over an abstract date type `δ`, and
the per-granularity key functions (`localDayKey`, `isoWeekKey`,
`localMonthKey`) are parameters `δ → String`. -/

/-- `sumTokens` from `Dashboard.tsx`: the four token counts of one
entry, summed. -/
def sumTokens (e : UsageEntry) : Nat :=
  e.input_tokens + e.output_tokens + e.cache_read_tokens + e.cache_write_tokens

/-- The `totals` accumulator of `Dashboard.tsx`. -/
structure Totals where
  input : Nat
  output : Nat
  cost : ℚ
  requests : Nat
deriving DecidableEq, Repr

/-- `totals` from `Dashboard.tsx`: one pass over `data` summing input
tokens, output tokens, cost, and counting requests. -/
def totals (data : List UsageEntry) : Totals :=
  data.foldl
    (fun t e =>
      { input := t.input + e.input_tokens
        output := t.output + e.output_tokens
        cost := t.cost + e.cost
        requests := t.requests + 1 })
    { input := 0, output := 0, cost := 0, requests := 0 }

/-- The `DailyPoint` row of `Dashboard.tsx`'s `dailySeries`. -/
structure DailyPoint where
  date : String
  tokens : Nat
  requests : Nat
  input : Nat
  output : Nat
  cost : ℚ
deriving DecidableEq, Repr

/-- The fresh `DailyPoint` created when a day key is first seen. -/
def newDailyPoint (key : String) : DailyPoint :=
  { date := key, tokens := 0, requests := 0, input := 0, output := 0, cost := 0 }

/-- The per-entry update of a `DailyPoint` in `dailySeries`. -/
def bumpDailyPoint (cur : DailyPoint) (e : UsageEntry) : DailyPoint :=
  { cur with
    tokens := cur.tokens + sumTokens e
    requests := cur.requests + 1
    input := cur.input + e.input_tokens
    output := cur.output + e.output_tokens
    cost := cur.cost + e.cost }

/-- The `DateRow` of `DateTable.tsx`. -/
structure DateRow where
  date : String
  requests : Nat
  input_tokens : Nat
  output_tokens : Nat
  cache_read_tokens : Nat
  cache_write_tokens : Nat
  cost : ℚ
deriving DecidableEq, Repr

/-- The fresh `DateRow` created when a date key is first seen. -/
def newDateRow (key : String) : DateRow :=
  { date := key, requests := 0, input_tokens := 0, output_tokens := 0
    cache_read_tokens := 0, cache_write_tokens := 0, cost := 0 }

/-- The per-entry update of a `DateRow` in `DateTable.tsx`. -/
def bumpDateRow (cur : DateRow) (e : UsageEntry) : DateRow :=
  { cur with
    requests := cur.requests + 1
    input_tokens := cur.input_tokens + e.input_tokens
    output_tokens := cur.output_tokens + e.output_tokens
    cache_read_tokens := cur.cache_read_tokens + e.cache_read_tokens
    cache_write_tokens := cur.cache_write_tokens + e.cache_write_tokens
    cost := cur.cost + e.cost }

/-- The `ModelRow` of `UsageTable.tsx` (and of `DateTable.tsx`'s
expanded per-model view). -/
structure ModelRow where
  model : String
  requests : Nat
  input_tokens : Nat
  output_tokens : Nat
  cache_read_tokens : Nat
  cache_write_tokens : Nat
  cost : ℚ
deriving DecidableEq, Repr

/-- The fresh `ModelRow` created when a model is first seen. -/
def newModelRow (m : String) : ModelRow :=
  { model := m, requests := 0, input_tokens := 0, output_tokens := 0
    cache_read_tokens := 0, cache_write_tokens := 0, cost := 0 }

/-- The per-entry update of a `ModelRow` in `UsageTable.tsx`. -/
def bumpModelRow (cur : ModelRow) (e : UsageEntry) : ModelRow :=
  { cur with
    requests := cur.requests + 1
    input_tokens := cur.input_tokens + e.input_tokens
    output_tokens := cur.output_tokens + e.output_tokens
    cache_read_tokens := cur.cache_read_tokens + e.cache_read_tokens
    cache_write_tokens := cur.cache_write_tokens + e.cache_write_tokens
    cost := cur.cost + e.cost }

/-- `totalTokens` from `UsageTable.tsx` / `DateTable.tsx`, on a model
row. -/
def totalTokensM (r : ModelRow) : Nat :=
  r.input_tokens + r.output_tokens + r.cache_read_tokens + r.cache_write_tokens

/-- The shared grouping fold of the three tables: for each entry, derive
an optional key; skip the entry when the key is `none` (the
`if (!d) continue` branch), else fetch-or-create the row for the key,
apply the per-entry update, and store it back. -/
def keyedFold {ρ : Type} (mk : String → ρ) (bump : ρ → UsageEntry → ρ)
    (kf : UsageEntry → Option String) (m : List (String × ρ))
    (data : List UsageEntry) : List (String × ρ) :=
  data.foldl
    (fun m e =>
      match kf e with
      | none => m
      | some k => mapSet m k (bump ((mapGet m k).getD (mk k)) e))
    m

/-- `dailySeries` from `Dashboard.tsx`: group by the local day key of
each parseable timestamp (unparseable timestamps are skipped), then sort
the rows ascending by date key. -/
def dailySeries {δ : Type} (sd : String → Option δ) (dayKey : δ → String)
    (data : List UsageEntry) : List DailyPoint :=
  List.insertionSort (fun a b : DailyPoint => a.date ≤ b.date)
    ((keyedFold newDailyPoint bumpDailyPoint
        (fun e => (sd e.timestamp).map dayKey) [] data).map (fun p => p.2))

/-- The `rows` of `DateTable.tsx`: group by the granularity key of each
parseable timestamp (unparseable timestamps are skipped), then sort the
rows descending by date key. -/
def dateRows {δ : Type} (sd : String → Option δ) (gkey : δ → String)
    (data : List UsageEntry) : List DateRow :=
  List.insertionSort (fun a b : DateRow => b.date ≤ a.date)
    ((keyedFold newDateRow bumpDateRow
        (fun e => (sd e.timestamp).map gkey) [] data).map (fun p => p.2))

/-- The `rows` of `UsageTable.tsx`: group every entry by its model (no
entry is ever skipped), then sort by cost descending, ties broken by
total tokens descending. -/
def usageTableRows (data : List UsageEntry) : List ModelRow :=
  List.insertionSort
    (fun a b : ModelRow =>
      b.cost < a.cost ∨ (b.cost = a.cost ∧ totalTokensM b ≤ totalTokensM a))
    ((keyedFold newModelRow bumpModelRow (fun e => some e.model) [] data).map
      (fun p => p.2))

/-! ## Concrete sample data

Small concrete inputs used to instantiate the verified statements. -/

/-- The first JSONL record of the specification's worked example:
model `m1`, 100 input tokens, 50 output tokens. -/
def evA : RawEvent :=
  { timestamp := "2024-01-01T00:00:00Z", model := "m1", input_tokens := 100
    output_tokens := 50, cache_read_tokens := 0, cache_write_tokens := 0
    identity := none }

/-- The second JSONL record of the specification's worked example:
model `m1`, 50 input tokens, 10 output tokens. -/
def evB : RawEvent :=
  { timestamp := "2024-01-01T00:05:00Z", model := "m1", input_tokens := 50
    output_tokens := 10, cache_read_tokens := 0, cache_write_tokens := 0
    identity := none }

/-- The single-tier pricing table of the worked example: input rate
0.01 per 1000 tokens, output rate 0.02 per 1000 tokens. -/
def tableM1 : PricingTable :=
  [{ model := "m1"
     tiers := [{ threshold_tokens := 0, input_rate := 1/100, output_rate := 1/50
                 cache_read_rate := 0, cache_write_rate := 0 }] }]

/-- The worked example's input file holding the two JSONL records. -/
def fileAB : SourceFile :=
  { path := "/home/u/.claude/projects/p/a.jsonl", tool := Tool.ClaudeCode
    events := [evA, evB], size := 160, mtime := 5 }

/-- A record whose model appears in no pricing rule. -/
def evU : RawEvent :=
  { timestamp := "2024-01-02T00:00:00Z", model := "mystery", input_tokens := 1
    output_tokens := 1, cache_read_tokens := 0, cache_write_tokens := 0
    identity := none }

/-- A file holding only the unknown-model record. -/
def fileU : SourceFile :=
  { path := "/home/u/.claude/projects/p/u.jsonl", tool := Tool.ClaudeCode
    events := [evU], size := 80, mtime := 7 }

/-- A pricing table that prices `mystery` at rate zero on every axis. -/
def tableZero : PricingTable :=
  [{ model := "mystery"
     tiers := [{ threshold_tokens := 0, input_rate := 0, output_rate := 0
                 cache_read_rate := 0, cache_write_rate := 0 }] }]

/-- The empty pricing table. -/
def tableEmpty : PricingTable := []

/-- The base tier of the two-tier sample table (threshold 0). -/
def tierLow : Tier :=
  { threshold_tokens := 0, input_rate := 3, output_rate := 4
    cache_read_rate := 1, cache_write_rate := 2 }

/-- The higher tier of the two-tier sample table (threshold 200000). -/
def tierHigh : Tier :=
  { threshold_tokens := 200000, input_rate := 6, output_rate := 8
    cache_read_rate := 5, cache_write_rate := 7 }

/-- A pricing table with a tier boundary at 200k for model `big`. -/
def tableTiered : PricingTable :=
  [{ model := "big", tiers := [tierLow, tierHigh] }]

/-- A sample usage entry as held by the frontend. -/
def entryW : UsageEntry :=
  { timestamp := "2024-01-01T00:00:00Z", tool := "ClaudeCode", model := "m1"
    input_tokens := 1, output_tokens := 2, cache_read_tokens := 3
    cache_write_tokens := 4, cost := 1/2 }

/-- A sample usage entry whose timestamp does not parse. -/
def entryBad : UsageEntry :=
  { timestamp := "not-a-date", tool := "ClaudeCode", model := "m2"
    input_tokens := 5, output_tokens := 6, cache_read_tokens := 0
    cache_write_tokens := 0, cost := 1/4 }

/-- A scan state already holding one accumulated entry. -/
def stateW : ScanState :=
  { cursors := [], entries := [(DedupKey.byId "x", entryW)] }

/-- A sample date-parse function for witnesses: every timestamp other
than `"not-a-date"` parses, to itself. -/
def sdW (s : String) : Option String :=
  if s = "not-a-date" then none else some s

/-! ## Association-list lemmas -/

theorem mapGet_mapSet_self {β : Type} (m : List (String × β)) (p : String) (c : β) :
    mapGet (mapSet m p c) p = some c := by
  induction m with
  | nil => simp [mapSet, mapGet]
  | cons kv rest ih =>
      by_cases h : kv.1 = p
      · simp [mapSet, mapGet, h]
      · simpa [mapSet, mapGet, h] using ih

theorem mapGet_mapSet_other {β : Type} (m : List (String × β)) (p q : String)
    (c : β) (h : q ≠ p) : mapGet (mapSet m p c) q = mapGet m q := by
  induction m with
  | nil => simp [mapSet, mapGet, Ne.symm h]
  | cons kv rest ih =>
      obtain ⟨k, v⟩ := kv
      by_cases hk : k = p
      · subst hk
        simp [mapSet, mapGet, Ne.symm h, h]
      · simp [mapSet, mapGet, hk, ih]

theorem mapSet_same {β : Type} (m : List (String × β)) (p : String) (c : β)
    (h : mapGet m p = some c) : mapSet m p c = m := by
  induction m with
  | nil => simp [mapGet] at h
  | cons kv rest ih =>
      obtain ⟨k, v⟩ := kv
      by_cases hk : k = p
      · subst hk
        simp [mapGet] at h
        simp [mapSet, h]
      · simp only [mapGet, if_neg hk] at h
        simp [mapSet, hk, ih h]

/-! ## Accumulated-entry lemmas -/

theorem insertAll_nil (acc : List (DedupKey × UsageEntry)) :
    insertAll acc [] = acc := rfl

theorem mem_insertEntry (acc : List (DedupKey × UsageEntry)) (k : DedupKey)
    (e : UsageEntry) (p : DedupKey × UsageEntry) (h : p ∈ acc) :
    p ∈ insertEntry acc k e := by
  unfold insertEntry
  split
  · exact h
  · exact List.mem_append_left _ h

theorem mem_insertAll (acc news : List (DedupKey × UsageEntry))
    (p : DedupKey × UsageEntry) (h : p ∈ acc) : p ∈ insertAll acc news := by
  induction news generalizing acc with
  | nil => exact h
  | cons q rest ih =>
      exact ih (insertEntry acc q.1 q.2) (mem_insertEntry acc q.1 q.2 p h)

/-! ## Scan-orchestrator lemmas -/

theorem stepFile_cursors (table : PricingTable) (b : Bool) (st : ScanState)
    (f : SourceFile) :
    (stepFile table b st f).cursors = mapSet st.cursors f.path (cursorOf f) := rfl

theorem foldl_step_cursors_untouched (table : PricingTable) (b : Bool)
    (files : List SourceFile) (st : ScanState) (p : String)
    (h : p ∉ files.map SourceFile.path) :
    mapGet (files.foldl (stepFile table b) st).cursors p = mapGet st.cursors p := by
  induction files generalizing st with
  | nil => rfl
  | cons g rest ih =>
      simp only [List.map_cons, List.mem_cons, not_or] at h
      rw [List.foldl_cons, ih _ h.2, stepFile_cursors,
        mapGet_mapSet_other _ _ _ _ h.1]

theorem cursor_after_fold (table : PricingTable) (b : Bool)
    (files : List SourceFile) (st : ScanState)
    (hnd : (files.map SourceFile.path).Nodup) (f : SourceFile) (hf : f ∈ files) :
    mapGet (files.foldl (stepFile table b) st).cursors f.path = some (cursorOf f) := by
  induction files generalizing st with
  | nil => cases hf
  | cons g rest ih =>
      simp only [List.map_cons, List.nodup_cons] at hnd
      rcases List.mem_cons.mp hf with hfg | hfr
      · subst hfg
        rw [List.foldl_cons,
          foldl_step_cursors_untouched table b rest _ f.path hnd.1,
          stepFile_cursors, mapGet_mapSet_self]
      · rw [List.foldl_cons]
        exact ih (stepFile table b st g) hnd.2 hfr

theorem stepFile_synced (table : PricingTable) (st : ScanState) (f : SourceFile)
    (h : mapGet st.cursors f.path = some (cursorOf f)) :
    stepFile table false st f = st := by
  have hoff : startOffset (some (cursorOf f)) f = f.events.length := by
    simp [startOffset, cursorOf]
  unfold stepFile
  rw [h]
  simp only [Bool.false_eq_true, if_false, hoff, List.drop_length, List.map_nil,
    insertAll_nil, mapSet_same st.cursors f.path (cursorOf f) h]

theorem foldl_stepFile_id (table : PricingTable) (files : List SourceFile)
    (st : ScanState) (h : ∀ f ∈ files, stepFile table false st f = st) :
    files.foldl (stepFile table false) st = st := by
  induction files with
  | nil => rfl
  | cons g rest ih =>
      rw [List.foldl_cons, h g (List.mem_cons_self g rest)]
      exact ih fun f hf => h f (List.mem_cons_of_mem g hf)

theorem incremental_after_fold (table : PricingTable) (b : Bool)
    (files : List SourceFile) (st : ScanState)
    (hnd : (files.map SourceFile.path).Nodup) :
    (files.foldl (stepFile table false)
      (files.foldl (stepFile table b) st)) = files.foldl (stepFile table b) st := by
  apply foldl_stepFile_id
  intro f hf
  exact stepFile_synced table _ f (cursor_after_fold table b files st hnd f hf)

/-! ## Hook lemmas -/

theorem refreshStep_hasFullLoaded (s : HookState)
    (r : Except String (List UsageEntry)) :
    (refreshStep s r).hasFullLoaded = (s.hasFullLoaded || isOk r) := by
  cases r <;> simp [refreshStep, refreshStart, refreshFinish, isOk]

theorem runRefreshes_hasFullLoaded (s : HookState)
    (rs : List (Except String (List UsageEntry))) :
    (runRefreshes s rs).hasFullLoaded = (s.hasFullLoaded || rs.any isOk) := by
  induction rs generalizing s with
  | nil => simp [runRefreshes]
  | cons r rest ih =>
      show (runRefreshes (refreshStep s r) rest).hasFullLoaded = _
      rw [ih, refreshStep_hasFullLoaded]
      simp [Bool.or_assoc]

/-! ## Aggregation lemmas -/

theorem mapSet_bump_sum {ρ M : Type} [AddCommMonoid M] (g : ρ → M)
    (w : UsageEntry → M) (mk : String → ρ) (bump : ρ → UsageEntry → ρ)
    (hb : ∀ r e, g (bump r e) = g r + w e) (hmk : ∀ k, g (mk k) = 0)
    (m : List (String × ρ)) (k : String) (e : UsageEntry) :
    ((mapSet m k (bump ((mapGet m k).getD (mk k)) e)).map (fun p => g p.2)).sum =
      (m.map (fun p => g p.2)).sum + w e := by
  induction m with
  | nil => simp [mapSet, mapGet, hb, hmk]
  | cons kv rest ih =>
      obtain ⟨k', r⟩ := kv
      by_cases hk : k' = k
      · subst hk
        simp [mapSet, mapGet, hb, add_right_comm]
      · simp only [mapGet, if_neg hk, mapSet, List.map_cons, List.sum_cons]
        rw [ih, add_assoc]

theorem keyedFold_sum {ρ M : Type} [AddCommMonoid M] (g : ρ → M)
    (w : UsageEntry → M) (mk : String → ρ) (bump : ρ → UsageEntry → ρ)
    (kf : UsageEntry → Option String)
    (hb : ∀ r e, g (bump r e) = g r + w e) (hmk : ∀ k, g (mk k) = 0)
    (data : List UsageEntry) (m : List (String × ρ)) :
    ((keyedFold mk bump kf m data).map (fun p => g p.2)).sum =
      (m.map (fun p => g p.2)).sum +
        ((data.filter (fun e => (kf e).isSome)).map w).sum := by
  induction data generalizing m with
  | nil => simp [keyedFold]
  | cons e rest ih =>
      cases hke : kf e with
      | none =>
          have hstep : keyedFold mk bump kf m (e :: rest) =
              keyedFold mk bump kf m rest := by
            simp [keyedFold, hke]
          rw [hstep, ih m]
          simp [List.filter_cons, hke]
      | some k =>
          have hstep : keyedFold mk bump kf m (e :: rest) =
              keyedFold mk bump kf
                (mapSet m k (bump ((mapGet m k).getD (mk k)) e)) rest := by
            simp [keyedFold, hke]
          rw [hstep, ih, mapSet_bump_sum g w mk bump hb hmk]
          simp [List.filter_cons, hke, add_assoc]

theorem sort_map_sum {ρ M : Type} [AddCommMonoid M] (g : ρ → M)
    (r : ρ → ρ → Prop) [DecidableRel r] (l : List ρ) :
    ((List.insertionSort r l).map g).sum = (l.map g).sum :=
  ((List.perm_insertionSort r l).map g).sum_eq

theorem totals_foldl_requests (data : List UsageEntry) (t : Totals) :
    (data.foldl
      (fun t e =>
        { input := t.input + e.input_tokens
          output := t.output + e.output_tokens
          cost := t.cost + e.cost
          requests := t.requests + 1 }) t).requests = t.requests + data.length := by
  induction data generalizing t with
  | nil => simp
  | cons e rest ih =>
      rw [List.foldl_cons, ih]
      simp only [List.length_cons]
      omega

theorem totals_requests (data : List UsageEntry) :
    (totals data).requests = data.length := by
  unfold totals
  rw [totals_foldl_requests]
  simp

theorem length_filter_lt_of_mem {α : Type} (p : α → Bool) (l : List α) (x : α)
    (hx : x ∈ l) (hp : p x = false) : (l.filter p).length < l.length := by
  induction l with
  | nil => cases hx
  | cons a t ih =>
      rcases List.mem_cons.mp hx with hxa | hxt
      · subst hxa
        rw [List.filter_cons, hp]
        exact Nat.lt_succ_of_le (List.length_filter_le p t)
      · rw [List.filter_cons]
        cases hpa : p a
        · simp only [Bool.false_eq_true, if_neg]
          exact Nat.lt_succ_of_lt (ih hxt)
        · simp only [if_pos rfl, List.length_cons]
          exact Nat.succ_lt_succ (ih hxt)

theorem sum_map_one {α : Type} (l : List α) :
    (l.map (fun _ => (1 : Nat))).sum = l.length := by
  induction l with
  | nil => rfl
  | cons a t ih => simp [ih, Nat.add_comm]

theorem mem_insertEntry_cases (acc : List (DedupKey × UsageEntry)) (k : DedupKey)
    (e : UsageEntry) (p : DedupKey × UsageEntry) (h : p ∈ insertEntry acc k e) :
    p ∈ acc ∨ p = (k, e) := by
  unfold insertEntry at h
  split at h
  · exact Or.inl h
  · rcases List.mem_append.mp h with h1 | h2
    · exact Or.inl h1
    · exact Or.inr (List.mem_singleton.mp h2)

theorem mem_insertAll_cases (acc news : List (DedupKey × UsageEntry))
    (p : DedupKey × UsageEntry) (h : p ∈ insertAll acc news) :
    p ∈ acc ∨ p ∈ news := by
  induction news generalizing acc with
  | nil => exact Or.inl h
  | cons q rest ih =>
      rcases ih (insertEntry acc q.1 q.2) h with h1 | h2
      · rcases mem_insertEntry_cases acc q.1 q.2 p h1 with h3 | h4
        · exact Or.inl h3
        · exact Or.inr (h4 ▸ List.mem_cons_self q rest)
      · exact Or.inr (List.mem_cons_of_mem q h2)

theorem mem_entries_foldl (table : PricingTable) (b : Bool)
    (files : List SourceFile) (st : ScanState) (p : DedupKey × UsageEntry)
    (h : p ∈ st.entries) : p ∈ (files.foldl (stepFile table b) st).entries := by
  induction files generalizing st with
  | nil => exact h
  | cons g rest ih =>
      rw [List.foldl_cons]
      exact ih (stepFile table b st g) (mem_insertAll _ _ p h)

theorem foldl_entries_invariant (table : PricingTable) (b : Bool)
    (files : List SourceFile) (st : ScanState) (P : DedupKey × UsageEntry → Prop)
    (hst : ∀ p ∈ st.entries, P p)
    (hnew : ∀ f ∈ files, ∀ ev ∈ f.events,
      P (dedupKey f.tool ev, priceEvent table f.tool ev)) :
    ∀ p ∈ (files.foldl (stepFile table b) st).entries, P p := by
  induction files generalizing st with
  | nil => exact hst
  | cons g rest ih =>
      rw [List.foldl_cons]
      apply ih (stepFile table b st g)
      · intro p hp
        rcases mem_insertAll_cases _ _ p hp with h1 | h2
        · exact hst p h1
        · rcases List.mem_map.mp h2 with ⟨ev, hev, hpe⟩
          exact hpe ▸ hnew g (List.mem_cons_self g rest) ev (List.mem_of_mem_drop hev)
      · intro f hf
        exact hnew f (List.mem_cons_of_mem g hf)

theorem toolName_mem (t : Tool) :
    toolName t = "ClaudeCode" ∨ toolName t = "CodexCLI" ∨ toolName t = "OpenCode" := by
  cases t
  · exact Or.inl rfl
  · exact Or.inr (Or.inl rfl)
  · exact Or.inr (Or.inr rfl)

theorem isSome_option_map {α β : Type} (o : Option α) (f : α → β) :
    (o.map f).isSome = o.isSome := by
  cases o <;> rfl

theorem usageRows_sum {M : Type} [AddCommMonoid M] (g : ModelRow → M)
    (w : UsageEntry → M) (hb : ∀ r e, g (bumpModelRow r e) = g r + w e)
    (hmk : ∀ k, g (newModelRow k) = 0) (data : List UsageEntry) :
    ((usageTableRows data).map g).sum = (data.map w).sum := by
  unfold usageTableRows
  rw [sort_map_sum, List.map_map]
  have := keyedFold_sum g w newModelRow bumpModelRow (fun e => some e.model)
    hb hmk data []
  simp only [List.map_nil, List.sum_nil, zero_add, Option.isSome_some,
    List.filter_true] at this
  rw [show ((fun p : String × ModelRow => g p.2) = g ∘ (fun p => p.2)) from rfl] at this
  exact this

theorem dailyRows_sum {δ : Type} {M : Type} [AddCommMonoid M]
    (g : DailyPoint → M) (w : UsageEntry → M)
    (hb : ∀ r e, g (bumpDailyPoint r e) = g r + w e)
    (hmk : ∀ k, g (newDailyPoint k) = 0)
    (sd : String → Option δ) (dayKey : δ → String) (data : List UsageEntry) :
    ((dailySeries sd dayKey data).map g).sum =
      ((data.filter (fun e => (sd e.timestamp).isSome)).map w).sum := by
  unfold dailySeries
  rw [sort_map_sum, List.map_map]
  have := keyedFold_sum g w newDailyPoint bumpDailyPoint
    (fun e => (sd e.timestamp).map dayKey) hb hmk data []
  simp only [List.map_nil, List.sum_nil, zero_add, isSome_option_map] at this
  rw [show ((fun p : String × DailyPoint => g p.2) = g ∘ (fun p => p.2)) from rfl] at this
  exact this

theorem dateRows_sum {δ : Type} {M : Type} [AddCommMonoid M]
    (g : DateRow → M) (w : UsageEntry → M)
    (hb : ∀ r e, g (bumpDateRow r e) = g r + w e)
    (hmk : ∀ k, g (newDateRow k) = 0)
    (sd : String → Option δ) (gkey : δ → String) (data : List UsageEntry) :
    ((dateRows sd gkey data).map g).sum =
      ((data.filter (fun e => (sd e.timestamp).isSome)).map w).sum := by
  unfold dateRows
  rw [sort_map_sum, List.map_map]
  have := keyedFold_sum g w newDateRow bumpDateRow
    (fun e => (sd e.timestamp).map gkey) hb hmk data []
  simp only [List.map_nil, List.sum_nil, zero_add, isSome_option_map] at this
  rw [show ((fun p : String × DateRow => g p.2) = g ∘ (fun p => p.2)) from rfl] at this
  exact this

/-! ## Claim theorems -/

/-- Claim C1: a successful `refresh` replaces the hook's entire
in-memory dataset with the returned array, independently of the previous
data state; and both scan operations return the complete accumulated
entry set known so far — the response equals the post-scan accumulated
set, and every entry known before the call is contained in the
response, not just a delta. -/
theorem refresh_replaces_dataset_with_complete_set :
    (∀ (s : HookState) (next : List UsageEntry),
      (refreshStep s (Except.ok next)).data = next) ∧
    (∀ (table : PricingTable) (st : ScanState) (files : List SourceFile),
      (scanAllUsage table st files).2 =
        ((scanAllUsage table st files).1).entries.map (fun p => p.2) ∧
      (scanAllUsageIncremental table st files).2 =
        ((scanAllUsageIncremental table st files).1).entries.map (fun p => p.2) ∧
      ∀ p ∈ st.entries,
        p.2 ∈ (scanAllUsage table st files).2 ∧
          p.2 ∈ (scanAllUsageIncremental table st files).2) := by
  refine ⟨fun s next => rfl, fun table st files => ⟨rfl, rfl, fun p hp => ⟨?_, ?_⟩⟩⟩
  · exact List.mem_map_of_mem (fun p => p.2)
      (mem_entries_foldl table true files { st with cursors := [] } p hp)
  · exact List.mem_map_of_mem (fun p => p.2)
      (mem_entries_foldl table false files st p hp)

/-- Witness for C1 at concrete inputs: a successful refresh from the
initial hook state stores exactly the returned array, and an entry
already accumulated in the scan state appears in the response of both
scan operations over an empty file set. -/
theorem refresh_replaces_dataset_with_complete_set_witness :
    (refreshStep initialHookState (Except.ok [entryW])).data = [entryW] ∧
    entryW ∈ (scanAllUsage tableEmpty stateW []).2 ∧
    entryW ∈ (scanAllUsageIncremental tableEmpty stateW []).2 :=
  ⟨refresh_replaces_dataset_with_complete_set.1 initialHookState [entryW],
   ((refresh_replaces_dataset_with_complete_set.2 tableEmpty stateW []).2.2
     (DedupKey.byId "x", entryW) (by simp [stateW])).1,
   ((refresh_replaces_dataset_with_complete_set.2 tableEmpty stateW []).2.2
     (DedupKey.byId "x", entryW) (by simp [stateW])).2⟩

/-- Claim C2: while no refresh has succeeded the hook issues the full
scan `scan_all_usage`; once some refresh has succeeded every refresh
issues `scan_all_usage_incremental`; and the first incremental call
after a full scan over unchanged files returns the same complete entry
set as the full scan — an incremental continuation, not a second full
scan. -/
theorem first_refresh_full_then_incremental :
    (∀ pre : List (Except String (List UsageEntry)),
      (pre.any isOk = false →
        refreshCmd (runRefreshes initialHookState pre) = "scan_all_usage") ∧
      (pre.any isOk = true →
        refreshCmd (runRefreshes initialHookState pre) = "scan_all_usage_incremental")) ∧
    (∀ (table : PricingTable) (st : ScanState) (files : List SourceFile),
      (files.map SourceFile.path).Nodup →
      (scanAllUsageIncremental table (scanAllUsage table st files).1 files).2 =
        (scanAllUsage table st files).2) := by
  constructor
  · intro pre
    constructor
    · intro h
      rw [refreshCmd, runRefreshes_hasFullLoaded, h]
      rfl
    · intro h
      rw [refreshCmd, runRefreshes_hasFullLoaded, h]
      rfl
  · intro table st files hnd
    show (files.foldl (stepFile table false)
      (files.foldl (stepFile table true) { st with cursors := [] })).entries.map _ = _
    rw [incremental_after_fold table true files { st with cursors := [] } hnd]
    rfl

/-- Witness for C2 at concrete inputs: after one failed refresh the hook
still issues the full scan, after one successful refresh it issues the
incremental scan, and the incremental scan right after a full scan of
the worked-example file returns the same entry set. -/
theorem first_refresh_full_then_incremental_witness :
    refreshCmd (runRefreshes initialHookState [Except.error "boom"]) = "scan_all_usage" ∧
    refreshCmd (runRefreshes initialHookState [Except.ok [entryW]]) =
      "scan_all_usage_incremental" ∧
    (scanAllUsageIncremental tableM1 (scanAllUsage tableM1 scanState0 [fileAB]).1
        [fileAB]).2 =
      (scanAllUsage tableM1 scanState0 [fileAB]).2 :=
  ⟨(first_refresh_full_then_incremental.1 [Except.error "boom"]).1 rfl,
   (first_refresh_full_then_incremental.1 [Except.ok [entryW]]).2 rfl,
   first_refresh_full_then_incremental.2 tableM1 scanState0 [fileAB] (by simp)⟩

/-- Claim C3: with a two-tier rule whose boundary is at 200000 tokens,
tier selection is a function of the request's own `input_tokens` alone —
the higher tier is active exactly when `input_tokens` reaches 200000 —
and a request with `input_tokens = 200000` is priced entirely at the
higher tier's rates on all four token kinds, with no blending. -/
theorem tier_boundary_prices_entire_request (table : PricingTable) (m : String)
    (r : PricingRule) (t0 t1 : Tier) (o cr cw : Nat)
    (hr : lookupRule table m = some r) (ht : r.tiers = [t0, t1])
    (h0 : t0.threshold_tokens = 0) (h1 : t1.threshold_tokens = 200000) :
    (∀ n : Nat, selectTier r.tiers n = some (if 200000 ≤ n then t1 else t0)) ∧
    calcCost table m 200000 o cr cw =
      ((200000 : ℚ) * t1.input_rate / 1000 + (o : ℚ) * t1.output_rate / 1000 +
        (cr : ℚ) * t1.cache_read_rate / 1000 + (cw : ℚ) * t1.cache_write_rate / 1000,
       false) := by
  have hsel : ∀ n : Nat, selectTier r.tiers n = some (if 200000 ≤ n then t1 else t0) := by
    intro n
    rw [ht]
    by_cases hn : 200000 ≤ n
    · simp [selectTier, h0, h1, hn, Nat.zero_le]
    · simp [selectTier, h0, h1, hn, Nat.zero_le]
  refine ⟨hsel, ?_⟩
  simp only [calcCost, hr, hsel 200000]
  norm_num

/-- Witness for C3 at concrete inputs: the two-tier sample table with
boundary 200000 selects the higher tier at exactly 200000 tokens and
prices the whole request at the higher tier's rates. -/
theorem tier_boundary_prices_entire_request_witness :
    selectTier [tierLow, tierHigh] 200000 = some tierHigh ∧
    calcCost tableTiered "big" 200000 10 20 30 = ((120039 : ℚ)/100, false) := by
  have h := tier_boundary_prices_entire_request tableTiered "big"
    { model := "big", tiers := [tierLow, tierHigh] } tierLow tierHigh 10 20 30
    (by decide) rfl rfl rfl
  constructor
  · have h200 := h.1 200000
    simpa using h200
  · rw [h.2]
    norm_num [tierHigh]

/-- Claim C4 counterexample: on the worked example's file and single-tier
rule (input 0.01 per 1000 tokens, output 0.02 per 1000 tokens), the scan
yields costs 0.002 and 0.0007, not the claimed 0.0015 and 0.00055. -/
theorem worked_example_costs_counterexample :
    (scanAllUsage tableM1 scanState0 [fileAB]).2.map (fun e => e.cost) =
      [1/500, 7/10000] ∧
    (scanAllUsage tableM1 scanState0 [fileAB]).2.map (fun e => e.cost) ≠
      [3/2000, 11/20000] ∧
    ((1 : ℚ)/500 ≠ 3/2000 ∧ (7 : ℚ)/10000 ≠ 11/20000) := by
  have hout : (scanAllUsage tableM1 scanState0 [fileAB]).2.map (fun e => e.cost) =
      [1/500, 7/10000] := by
    simp only [scanAllUsage, scanState0, List.foldl_cons, List.foldl_nil, stepFile,
      fileAB, evA, evB, List.drop_zero, List.map_cons, List.map_nil, dedupKey,
      priceEvent, insertAll, insertEntry]
    norm_num [calcCost, lookupRule, tableM1, List.find?, selectTier]
  refine ⟨hout, ?_, by norm_num, by norm_num⟩
  rw [hout]
  intro hcontra
  have := List.head_eq_of_cons_eq hcontra
  norm_num at this

/-- Claim C4 as amended: the worked example's two JSONL records priced
against the single-tier rule yield exactly two entries with costs 0.002
and 0.0007, and aggregating them upstream yields totals of 150 input
tokens and 60 output tokens. -/
theorem worked_example_costs_amended :
    (scanAllUsage tableM1 scanState0 [fileAB]).2.map (fun e => e.cost) =
      [2/1000, 7/10000] ∧
    (scanAllUsage tableM1 scanState0 [fileAB]).2.length = 2 ∧
    (totals (scanAllUsage tableM1 scanState0 [fileAB]).2).input = 150 ∧
    (totals (scanAllUsage tableM1 scanState0 [fileAB]).2).output = 60 := by
  have hlist : (scanAllUsage tableM1 scanState0 [fileAB]).2 =
      [priceEvent tableM1 Tool.ClaudeCode evA, priceEvent tableM1 Tool.ClaudeCode evB] := by
    simp only [scanAllUsage, scanState0, List.foldl_cons, List.foldl_nil, stepFile,
      fileAB, evA, evB, List.drop_zero, List.map_cons, List.map_nil, dedupKey,
      insertAll, insertEntry]
    norm_num [priceEvent, evA, evB]
  refine ⟨?_, ?_, ?_, ?_⟩ <;> rw [hlist]
  · simp only [List.map_cons, List.map_nil]
    norm_num [priceEvent, evA, evB, calcCost, lookupRule, tableM1, List.find?, selectTier]
  · rfl
  · simp [totals, priceEvent, evA, evB]
  · simp [totals, priceEvent, evA, evB]

/-- Claim C5 counterexample: the public scan result carries no
"unpriced" indicator.  The unknown-model record scanned against the
empty table produces internally-flagged cost 0, the same record scanned
against a table pricing its model at rate zero produces an unflagged
cost 0, yet the two public results are identical — the caller cannot
see any unpriced indicator at the public interface. -/
theorem unpriced_indicator_counterexample :
    (calcCost tableZero "mystery" 1 1 0 0).2 = false ∧
    (calcCost tableEmpty "mystery" 1 1 0 0).2 = true ∧
    (scanAllUsage tableZero scanState0 [fileU]).2 =
      (scanAllUsage tableEmpty scanState0 [fileU]).2 := by
  refine ⟨?_, ?_, ?_⟩
  · norm_num [calcCost, lookupRule, tableZero, List.find?, selectTier]
  · norm_num [calcCost, lookupRule, tableEmpty, List.find?]
  · simp only [scanAllUsage, scanState0, List.foldl_cons, List.foldl_nil, stepFile,
      fileU, evU, List.drop_zero, List.map_cons, List.map_nil, dedupKey,
      priceEvent, insertAll, insertEntry]
    norm_num [calcCost, lookupRule, tableZero, tableEmpty, List.find?, selectTier]

/-- Claim C5 as amended: a record whose model has no matching pricing
rule is priced at cost 0 with the calculator's internal unpriced flag
set and without any error, and the entry is kept in the scan result —
but the public `UsageEntry` carries no explicit unpriced field, so the
flag itself is not visible at the public interface. -/
theorem unpriced_fallback_amended (table : PricingTable) (m : String)
    (i o cr cw : Nat) (h : lookupRule table m = none) :
    calcCost table m i o cr cw = (0, true) ∧
    ∀ (f : SourceFile) (ev : RawEvent), f.events = [ev] → ev.model = m →
      (scanAllUsage table scanState0 [f]).2 = [priceEvent table f.tool ev] ∧
      (priceEvent table f.tool ev).cost = 0 := by
  constructor
  · unfold calcCost
    rw [h]
  · intro f ev hf hm
    constructor
    · show (List.foldl (stepFile table true)
        { scanState0 with cursors := [] } [f]).entries.map _ = _
      simp [scanState0, stepFile, hf, insertAll, insertEntry]
    · show (calcCost table ev.model ev.input_tokens ev.output_tokens
        ev.cache_read_tokens ev.cache_write_tokens).1 = 0
      rw [hm]
      unfold calcCost
      rw [h]

/-- Witness for C5 (amended) at concrete inputs: the unknown-model
record against the empty table is priced at cost 0 with the internal
flag set, and the scan keeps it as the sole result entry. -/
theorem unpriced_fallback_amended_witness :
    calcCost tableEmpty "mystery" 1 1 0 0 = (0, true) ∧
    (scanAllUsage tableEmpty scanState0 [fileU]).2 =
      [priceEvent tableEmpty fileU.tool evU] ∧
    (priceEvent tableEmpty fileU.tool evU).cost = 0 :=
  ⟨(unpriced_fallback_amended tableEmpty "mystery" 1 1 0 0 rfl).1,
   ((unpriced_fallback_amended tableEmpty "mystery" 1 1 0 0 rfl).2 fileU evU rfl rfl).1,
   ((unpriced_fallback_amended tableEmpty "mystery" 1 1 0 0 rfl).2 fileU evU rfl rfl).2⟩

/-- Claim C6: every `UsageEntry` returned to the presentation layer by
either scan operation has its `tool` field equal to one of the fixed
enumeration values ClaudeCode, CodexCLI, OpenCode — provided the
accumulated entries carried over from earlier scans already satisfy the
invariant, as every newly parsed entry does by construction. -/
theorem tool_field_fixed_enumeration (table : PricingTable) (st : ScanState)
    (files : List SourceFile)
    (h : ∀ p ∈ st.entries, p.2.tool = "ClaudeCode" ∨ p.2.tool = "CodexCLI" ∨
      p.2.tool = "OpenCode") :
    (∀ e ∈ (scanAllUsage table st files).2,
      e.tool = "ClaudeCode" ∨ e.tool = "CodexCLI" ∨ e.tool = "OpenCode") ∧
    (∀ e ∈ (scanAllUsageIncremental table st files).2,
      e.tool = "ClaudeCode" ∨ e.tool = "CodexCLI" ∨ e.tool = "OpenCode") := by
  have hnew : ∀ f ∈ files, ∀ ev ∈ f.events,
      (fun p : DedupKey × UsageEntry =>
        p.2.tool = "ClaudeCode" ∨ p.2.tool = "CodexCLI" ∨ p.2.tool = "OpenCode")
        (dedupKey f.tool ev, priceEvent table f.tool ev) :=
    fun f _ ev _ => toolName_mem f.tool
  constructor
  · intro e he
    rcases List.mem_map.mp he with ⟨p, hp, hpe⟩
    exact hpe ▸
      foldl_entries_invariant table true files { st with cursors := [] } _ h hnew p hp
  · intro e he
    rcases List.mem_map.mp he with ⟨p, hp, hpe⟩
    exact hpe ▸ foldl_entries_invariant table false files st _ h hnew p hp

/-- Witness for C6 at concrete inputs: the first entry of the
worked-example scan carries one of the three enumeration values. -/
theorem tool_field_fixed_enumeration_witness :
    (priceEvent tableM1 fileAB.tool evA).tool = "ClaudeCode" ∨
    (priceEvent tableM1 fileAB.tool evA).tool = "CodexCLI" ∨
    (priceEvent tableM1 fileAB.tool evA).tool = "OpenCode" :=
  (tool_field_fixed_enumeration tableM1 scanState0 [fileAB]
      (fun p hp => absurd hp (List.not_mem_nil p))).1
    (priceEvent tableM1 fileAB.tool evA)
    (by
      simp only [scanAllUsage, scanState0, List.foldl_cons, List.foldl_nil, stepFile,
        fileAB, evA, evB, List.drop_zero, List.map_cons, List.map_nil, dedupKey,
        insertAll, insertEntry]
      norm_num)

/-- Claim C7: running the incremental scan twice in succession with the
same (unchanged) file set yields an identical entry set both times. -/
theorem incremental_scan_idempotent (table : PricingTable) (st : ScanState)
    (files : List SourceFile) (hnd : (files.map SourceFile.path).Nodup) :
    (scanAllUsageIncremental table
        (scanAllUsageIncremental table st files).1 files).2 =
      (scanAllUsageIncremental table st files).2 := by
  show (files.foldl (stepFile table false)
    (files.foldl (stepFile table false) st)).entries.map _ = _
  rw [incremental_after_fold table false files st hnd]
  rfl

/-- Witness for C7 at concrete inputs: two successive incremental scans
of the worked-example file from the empty state agree. -/
theorem incremental_scan_idempotent_witness :
    (scanAllUsageIncremental tableM1
        (scanAllUsageIncremental tableM1 scanState0 [fileAB]).1 [fileAB]).2 =
      (scanAllUsageIncremental tableM1 scanState0 [fileAB]).2 :=
  incremental_scan_idempotent tableM1 scanState0 [fileAB] (by simp)

/-- Claim C8: when the backend `invoke` rejects during a refresh, the
hook keeps its previous data, sets `error` to the rejection's message,
returns `loading` to `false`, and leaves the completed-full-scan marker
unchanged (it is not set) — so when no refresh had succeeded yet, the
next refresh issues the full scan `scan_all_usage` again rather than
switching to `scan_all_usage_incremental`. -/
theorem refresh_error_keeps_state (s : HookState) (msg : String) :
    (refreshStep s (Except.error msg)).data = s.data ∧
    (refreshStep s (Except.error msg)).error = some msg ∧
    (refreshStep s (Except.error msg)).loading = false ∧
    (refreshStep s (Except.error msg)).hasFullLoaded = s.hasFullLoaded ∧
    (s.hasFullLoaded = false →
      refreshCmd (refreshStep s (Except.error msg)) = "scan_all_usage") := by
  refine ⟨rfl, rfl, rfl, rfl, fun h => ?_⟩
  simp [refreshCmd, refreshStep, refreshStart, refreshFinish, h]

/-- Witness for C8 at concrete inputs: a rejected first refresh from the
initial state keeps the empty dataset, records the message, stops
loading, leaves the marker clear, and the next refresh issues the full
scan. -/
theorem refresh_error_keeps_state_witness :
    (refreshStep initialHookState (Except.error "boom")).data = initialHookState.data ∧
    (refreshStep initialHookState (Except.error "boom")).error = some "boom" ∧
    (refreshStep initialHookState (Except.error "boom")).loading = false ∧
    (refreshStep initialHookState (Except.error "boom")).hasFullLoaded =
      initialHookState.hasFullLoaded ∧
    refreshCmd (refreshStep initialHookState (Except.error "boom")) = "scan_all_usage" :=
  ⟨(refresh_error_keeps_state initialHookState "boom").1,
   (refresh_error_keeps_state initialHookState "boom").2.1,
   (refresh_error_keeps_state initialHookState "boom").2.2.1,
   (refresh_error_keeps_state initialHookState "boom").2.2.2.1,
   (refresh_error_keeps_state initialHookState "boom").2.2.2.2 rfl⟩

/-- Claim C9: entries whose timestamp fails to parse are excluded from
the dashboard's daily series and from the By Date rows (the sum of
their request counts covers exactly the parseable entries), while the
totals cards and the By Model table count every entry; hence whenever
some entry's timestamp fails to parse, the sum over date-grouped rows
is strictly less than the overall totals. -/
theorem invalid_timestamps_excluded {δ : Type} (sd : String → Option δ)
    (dayKey gkey : δ → String) (data : List UsageEntry) :
    ((dailySeries sd dayKey data).map DailyPoint.requests).sum =
      (data.filter (fun e => (sd e.timestamp).isSome)).length ∧
    ((dateRows sd gkey data).map DateRow.requests).sum =
      (data.filter (fun e => (sd e.timestamp).isSome)).length ∧
    (totals data).requests = data.length ∧
    ((usageTableRows data).map ModelRow.requests).sum = data.length ∧
    (∀ e ∈ data, sd e.timestamp = none →
      ((dailySeries sd dayKey data).map DailyPoint.requests).sum <
        (totals data).requests ∧
      ((dateRows sd gkey data).map DateRow.requests).sum <
        (totals data).requests) := by
  have hdaily : ((dailySeries sd dayKey data).map DailyPoint.requests).sum =
      (data.filter (fun e => (sd e.timestamp).isSome)).length := by
    rw [dailyRows_sum DailyPoint.requests (fun _ => 1) (fun r e => rfl)
      (fun k => rfl) sd dayKey data, sum_map_one]
  have hdate : ((dateRows sd gkey data).map DateRow.requests).sum =
      (data.filter (fun e => (sd e.timestamp).isSome)).length := by
    rw [dateRows_sum DateRow.requests (fun _ => 1) (fun r e => rfl)
      (fun k => rfl) sd gkey data, sum_map_one]
  have hmodel : ((usageTableRows data).map ModelRow.requests).sum = data.length := by
    rw [usageRows_sum ModelRow.requests (fun _ => 1) (fun r e => rfl)
      (fun k => rfl) data, sum_map_one]
  refine ⟨hdaily, hdate, totals_requests data, hmodel, ?_⟩
  intro e he hnone
  have hlt : (data.filter (fun e => (sd e.timestamp).isSome)).length < data.length :=
    length_filter_lt_of_mem _ data e he (by rw [hnone]; rfl)
  rw [totals_requests data, hdaily, hdate]
  exact ⟨hlt, hlt⟩

/-- Witness for C9 at concrete inputs: with one parseable and one
unparseable timestamp, the date-grouped request sums fall strictly
short of the totals card's request count. -/
theorem invalid_timestamps_excluded_witness :
    ((dailySeries sdW id [entryW, entryBad]).map DailyPoint.requests).sum <
      (totals [entryW, entryBad]).requests ∧
    ((dateRows sdW id [entryW, entryBad]).map DateRow.requests).sum <
      (totals [entryW, entryBad]).requests :=
  (invalid_timestamps_excluded sdW id id [entryW, entryBad]).2.2.2.2 entryBad
    (by simp) (by simp [sdW, entryBad])

/-- Claim C10: the By Model aggregation is a sum-preserving partition —
summing requests, each of the four token counts, and cost over all
model rows reproduces exactly the entry count and the field-wise sums
of the whole input list. -/
theorem model_aggregation_sum_preserving (data : List UsageEntry) :
    ((usageTableRows data).map ModelRow.requests).sum = data.length ∧
    ((usageTableRows data).map ModelRow.input_tokens).sum =
      (data.map UsageEntry.input_tokens).sum ∧
    ((usageTableRows data).map ModelRow.output_tokens).sum =
      (data.map UsageEntry.output_tokens).sum ∧
    ((usageTableRows data).map ModelRow.cache_read_tokens).sum =
      (data.map UsageEntry.cache_read_tokens).sum ∧
    ((usageTableRows data).map ModelRow.cache_write_tokens).sum =
      (data.map UsageEntry.cache_write_tokens).sum ∧
    ((usageTableRows data).map ModelRow.cost).sum =
      (data.map UsageEntry.cost).sum := by
  refine ⟨?_, ?_, ?_, ?_, ?_, ?_⟩
  · rw [usageRows_sum ModelRow.requests (fun _ => 1) (fun r e => rfl)
      (fun k => rfl) data, sum_map_one]
  · exact usageRows_sum ModelRow.input_tokens UsageEntry.input_tokens
      (fun r e => rfl) (fun k => rfl) data
  · exact usageRows_sum ModelRow.output_tokens UsageEntry.output_tokens
      (fun r e => rfl) (fun k => rfl) data
  · exact usageRows_sum ModelRow.cache_read_tokens UsageEntry.cache_read_tokens
      (fun r e => rfl) (fun k => rfl) data
  · exact usageRows_sum ModelRow.cache_write_tokens UsageEntry.cache_write_tokens
      (fun r e => rfl) (fun k => rfl) data
  · exact usageRows_sum ModelRow.cost UsageEntry.cost
      (fun r e => rfl) (fun k => rfl) data

end TokenViewer
